import Mathlib

/-
  Verification of the product-scraping engine of FamilyChristmasList.

  Shallow embedding of src/app/api/scrape-product/route.ts (the live
  Next.js route handler) and of the historical ScraperAPI variant in
  src/unnamed/part_003.  DOM access is modelled by a record holding the
  results of the exact selector queries the code performs; JavaScript
  string and number semantics are modelled over List Char and Rat.
-/

/-- The JS whitespace class used by the regexes in route.ts
(`\s` restricted to the characters that occur in practice: space, tab,
newline, carriage return, vertical tab, form feed, NBSP). -/
def jsWs (c : Char) : Bool :=
  c = ' ' || c = '\t' || c = '\n' || c = '\r' || c = '\x0b' || c = '\x0c' || c = ' '

/-- JS `String.prototype.toLowerCase` for the ASCII range. -/
def toLowerS (s : String) : String :=
  String.mk (s.toList.map Char.toLower)

/-- JS `String.prototype.startsWith`. -/
def startsWithS (s pre : String) : Bool :=
  pre.toList.isPrefixOf s.toList

/-- Substring occurrence over character lists (JS `includes`). -/
def listContains (needle : List Char) : List Char → Bool
  | [] => needle.isEmpty
  | c :: t => needle.isPrefixOf (c :: t) || listContains needle t

/-- JS `String.prototype.includes`. -/
def strContains (hay needle : String) : Bool :=
  listContains needle.toList hay.toList

/-- JS truthiness of a nullable string (`null`, `undefined` and the empty
string are falsy). -/
def jsTruthy : Option String → Bool
  | some s => s ≠ ""
  | none => false

/-- JS `a || b` on nullable strings. -/
def jsOrS (a b : Option String) : Option String :=
  if jsTruthy a then a else b

/-- JS `a || null` on nullable strings: an empty string becomes null. -/
def jsOrNull (a : Option String) : Option String :=
  if jsTruthy a then a else none

/-- Models `if (x) candidates.push(x)`: a truthy value contributes a
singleton, anything else nothing. -/
def pushIf : Option String → List String
  | some s => if s = "" then [] else [s]
  | none => []

/-- Models `s || null` on a plain string. -/
def emptyToNone (s : String) : Option String :=
  if s = "" then none else some s

/-! ### cleanText (route.ts lines 4-7)

Collapse every whitespace run to a single space, then trim, with falsy
input short-circuited to the empty string. -/

/-- The whitespace-run replacement: every maximal run of whitespace
becomes a single space. -/
def collapseWs : List Char → List Char
  | [] => []
  | [a] => [if jsWs a then ' ' else a]
  | a :: b :: t =>
    if jsWs a && jsWs b then collapseWs (b :: t)
    else (if jsWs a then ' ' else a) :: collapseWs (b :: t)

/-- Drop trailing whitespace (right half of JS `trim`). -/
def trimRightWs : List Char → List Char
  | [] => []
  | c :: t =>
    match trimRightWs t with
    | [] => if jsWs c then [] else [c]
    | r => c :: r

/-- JS `String.prototype.trim` over character lists. -/
def jsTrim (l : List Char) : List Char :=
  trimRightWs (l.dropWhile jsWs)

/-- Whitespace collapsing followed by trimming, on character lists. -/
def cleanList (l : List Char) : List Char :=
  jsTrim (collapseWs l)

/-- route.ts `cleanText`: falsy input gives the empty string, otherwise
whitespace runs collapse to single spaces and the ends are trimmed. -/
def cleanText (input : Option String) : String :=
  match input with
  | none => ""
  | some s => if s = "" then "" else String.mk (cleanList s.toList)

/-! ### parsePrice (route.ts lines 9-17)

Strip every character outside digits, dot and comma; replace the first
comma by a dot; `parseFloat`; finiteness and positivity guards; then
`Number(num.toFixed(2))`. -/

/-- Characters kept by the stripping step: digits, dot, comma. -/
def priceChar (c : Char) : Bool :=
  c.isDigit || c = '.' || c = ','

/-- JS `replace` with a string comma pattern and a dot replacement: only
the FIRST comma is replaced. -/
def replaceFirstComma : List Char → List Char
  | [] => []
  | c :: t => if c = ',' then '.' :: t else c :: replaceFirstComma t

/-- Numeric value of a digit list (most significant first). -/
def digitsVal (l : List Char) : Nat :=
  l.foldl (fun acc c => 10 * acc + (c.toNat - '0'.toNat)) 0

/-- The digit-reading phase of JS `parseFloat` on strings over digits,
dots and commas (the only characters that can reach it in `parsePrice`):
the longest prefix of the form `digits [. digits]` is read; an empty
prefix or a bare dot gives NaN, modelled as `none`.  Returns the integer
part value, the fraction part value, and the fraction length. -/
def jsRead (l : List Char) : Option (ℕ × ℕ × ℕ) :=
  let ip := l.takeWhile Char.isDigit
  let rest := l.drop ip.length
  match rest with
  | '.' :: r2 =>
    let fp := r2.takeWhile Char.isDigit
    if ip.isEmpty && fp.isEmpty then none
    else some (digitsVal ip, digitsVal fp, fp.length)
  | _ => if ip.isEmpty then none else some (digitsVal ip, 0, 0)

/-- JS `parseFloat` (restricted as in `jsRead`), as a rational value. -/
def jsParseFloat (l : List Char) : Option ℚ :=
  (jsRead l).map fun r => (r.1 : ℚ) + (r.2.1 : ℚ) / (10 : ℚ) ^ r.2.2

/-- `Number(num.toFixed(2))` for the positive arguments it receives:
round to two decimal places, ties away from zero. -/
def round2 (q : ℚ) : ℚ :=
  (Rat.floor (q * 100 + 1 / 2) : ℚ) / 100

/-- route.ts `parsePrice`. -/
def parsePrice (text : Option String) : Option ℚ :=
  match text with
  | none => none
  | some t =>
    if t = "" then none
    else
      match jsParseFloat (replaceFirstComma (t.toList.filter priceChar)) with
      | none => none
      | some num => if num ≤ 0 then none else some (round2 num)

/-! ### URL model and toAbsoluteUrl (route.ts lines 19-39)

The platform `new URL` parser is modelled on its http(s) fragment, the
only part the handler exercises: `scheme://host[:port][/path...]` with a
non-empty host.  Strings without an `http://`/`https://` prefix (and
http(s) strings with an empty authority) make the constructor throw,
modelled as `none`.  Non-http(s) schemes, userinfo, and default-port
normalization are outside the modelled fragment and unused by the
claims. -/

structure ParsedUrl where
  scheme : String
  host : String
  port : String
  path : String
deriving DecidableEq

/-- Parse `scheme://authority/path`, given the characters after the
scheme prefix. -/
def parseAfterScheme (scheme : String) (rest : List Char) : Option ParsedUrl :=
  let auth := rest.takeWhile fun c => c ≠ '/' && c ≠ '?' && c ≠ '#'
  let path := rest.drop auth.length
  if auth.isEmpty then none
  else
    let hostChars := auth.takeWhile (· ≠ ':')
    let portChars := auth.drop (hostChars.length + 1)
    some ⟨scheme, toLowerS (String.mk hostChars), String.mk portChars,
      if path.isEmpty then "/" else String.mk path⟩

/-- `new URL(s)` on the modelled http(s) fragment. -/
def parseUrl (s : String) : Option ParsedUrl :=
  if startsWithS s "https://" then parseAfterScheme "https" (s.toList.drop 8)
  else if startsWithS s "http://" then parseAfterScheme "http" (s.toList.drop 7)
  else none

/-- JS `URL.protocol` (includes the trailing colon). -/
def ParsedUrl.protocol (u : ParsedUrl) : String :=
  u.scheme ++ ":"

/-- JS `URL.origin`. -/
def ParsedUrl.origin (u : ParsedUrl) : String :=
  u.scheme ++ "://" ++ u.host ++ (if u.port = "" then "" else ":" ++ u.port)

/-- The base path up to and including its last slash, used for
relative-reference resolution. -/
def dirOfPath (p : String) : String :=
  String.mk ((p.toList.reverse.dropWhile (· ≠ '/')).reverse)

/-- `new URL(raw, base).toString()` for a plain relative path (the
modelled fragment; dot segments, query-only and fragment-only references
are not exercised by the handler or the claims). -/
def resolveRelative (raw : String) (b : ParsedUrl) : String :=
  b.origin ++ dirOfPath b.path ++ raw

/-- route.ts `toAbsoluteUrl`.  Note that the `catch` branch returns the
raw candidate, and falsy input returns the empty string: the function
never yields a null-like failure marker. -/
def toAbsoluteUrl (raw : String) (baseUrl : String) : String :=
  if raw = "" then ""
  else if startsWithS raw "//" then
    match parseUrl baseUrl with
    | some b => b.protocol ++ raw
    | none => raw
  else if startsWithS raw "/" then
    match parseUrl baseUrl with
    | some b => b.origin ++ raw
    | none => raw
  else if startsWithS raw "http://" || startsWithS raw "https://" then raw
  else
    match parseUrl baseUrl with
    | some b => resolveRelative raw b
    | none => raw

/-! ### Document model

The handler queries the parsed document through a fixed set of CSS
selectors and attribute reads.  A document is modelled by the results of
exactly those queries: `none` stands for a missing element (or a null
attribute), `some s` for a returned string.  Element text content is a
string, attribute reads are nullable. -/

/-- The attributes read from the Amazon `#landingImage` and
`#imgTagWrapperId img` elements. -/
structure ImgEl where
  dataOldHires : Option String
  dataDynamicImage : Option String
  src : Option String
deriving DecidableEq

/-- The attributes read from each `<img>` by the generic image picker. -/
structure ImgSrcAttrs where
  src : Option String
  dataSrc : Option String
  dataSrcset : Option String
deriving DecidableEq

/-- Results of every selector query the POST handler performs. -/
structure Doc where
  /-- `meta[property="og:title"]` content -/
  ogTitle : Option String
  /-- `meta[name="twitter:title"]` content -/
  twitterTitle : Option String
  /-- `<title>` text content -/
  titleTag : Option String
  /-- `meta[property="og:description"]` content -/
  ogDescription : Option String
  /-- `meta[name="description"]` content -/
  metaDescription : Option String
  /-- `meta[name="twitter:description"]` content -/
  twitterDescription : Option String
  /-- `meta[itemprop="price"]` content -/
  metaItempropPrice : Option String
  /-- `meta[property="product:price:amount"]` content -/
  metaProductPriceAmount : Option String
  /-- `#priceblock_ourprice` text -/
  priceblockOurprice : Option String
  /-- `#priceblock_dealprice` text -/
  priceblockDealprice : Option String
  /-- `#corePriceDisplay_desktop_feature_div span.a-offscreen` text -/
  corePriceDisplayOffscreen : Option String
  /-- `#corePrice_feature span.a-offscreen` text -/
  corePriceFeatureOffscreen : Option String
  /-- text of every `span.a-offscreen`, in document order -/
  offscreenSpans : List String
  /-- `.priceView-customer-price span` text (Best Buy customer price) -/
  priceViewCustomerPrice : Option String
  /-- `.price, .Price, .pricing, [data-testid="price"]` text -/
  genericPriceSel : Option String
  /-- `#landingImage`, when present -/
  landingImage : Option ImgEl
  /-- `#imgTagWrapperId img`, when present -/
  wrapperImage : Option ImgEl
  /-- `meta[property="og:image"]` content -/
  ogImage : Option String
  /-- `meta[name="twitter:image"]` content -/
  twitterImage : Option String
  /-- `link[rel="image_src"]` href -/
  linkImageSrc : Option String
  /-- every `<img>` in document order -/
  imgs : List ImgSrcAttrs
deriving DecidableEq

/-- A document none of whose queries produce anything. -/
def emptyDoc : Doc :=
  ⟨none, none, none, none, none, none, none, none, none, none, none, none,
    [], none, none, none, none, none, none, none, []⟩

/-! ### findPrice (route.ts lines 126-173) -/

/-- The `texts` candidate list built by `findPrice`, in source order:
meta tags, Amazon price blocks, dollar-bearing offscreen spans, the Best
Buy customer-price selector, then the generic price selector. -/
def priceTexts (doc : Doc) : List (Option String) :=
  [jsOrNull doc.metaItempropPrice,
   jsOrNull doc.metaProductPriceAmount,
   jsOrNull doc.priceblockOurprice,
   jsOrNull doc.priceblockDealprice,
   jsOrNull doc.corePriceDisplayOffscreen,
   jsOrNull doc.corePriceFeatureOffscreen]
  ++ (doc.offscreenSpans.filter fun t => t ≠ "" && strContains t "$").map some
  ++ [jsOrNull doc.priceViewCustomerPrice,
      jsOrNull doc.genericPriceSel]

/-- The `for (const t of texts)` loop: the first candidate that parses
wins. -/
def firstParse : List (Option String) → Option ℚ
  | [] => none
  | t :: rest =>
    match parsePrice t with
    | some p => some p
    | none => firstParse rest

/-- route.ts `findPrice`. -/
def findPrice (doc : Doc) : Option ℚ :=
  firstParse (priceTexts doc)

/-! ### pickAmazonImage (route.ts lines 41-87) -/

/-- `data-old-hires || data-a-dynamic-image`, pushed only when truthy and
not JSON-shaped (must not start with an opening brace), followed by
`src` when truthy. -/
def imgElCandidates (el : ImgEl) : List String :=
  (match jsOrS el.dataOldHires el.dataDynamicImage with
   | some h => if h ≠ "" && !startsWithS h "\x7b" then [h] else []
   | none => [])
  ++ pushIf el.src

/-- The tracking filters shared by both image pickers. -/
def keepImageUrl (u : String) : Bool :=
  !strContains u "fls-na.amazon.com" && !strContains u "/1/batch/" &&
    !strContains (toLowerS u) "pixel"

/-- The `candidates` array built by `pickAmazonImage`: landing image,
wrapper image, then the `og:image`/`twitter:image` fallback. -/
def amazonCandidates (doc : Doc) : List String :=
  (doc.landingImage.elim [] imgElCandidates)
  ++ (doc.wrapperImage.elim [] imgElCandidates)
  ++ pushIf (jsOrS doc.ogImage doc.twitterImage)

/-- route.ts `pickAmazonImage`. -/
def pickAmazonImage (doc : Doc) (finalUrl : String) : Option String :=
  let absolute :=
    (((amazonCandidates doc).map fun u => toAbsoluteUrl u finalUrl).filter
      fun u => u ≠ "").filter keepImageUrl
  match absolute with
  | [] => none
  | h :: _ =>
    match absolute.find? fun u => strContains u "m.media-amazon.com" with
    | some p => some p
    | none => some h

/-! ### pickGenericImage (route.ts lines 89-124) -/

/-- `src || data-src || data-srcset` for one `<img>`. -/
def imgSrcCand (img : ImgSrcAttrs) : List String :=
  pushIf (jsOrS (jsOrS img.src img.dataSrc) img.dataSrcset)

/-- The `candidates` array built by `pickGenericImage`: meta images,
`link[rel=image_src]`, then every `<img>` source attribute. -/
def genericCandidates (doc : Doc) : List String :=
  pushIf (jsOrS doc.ogImage doc.twitterImage)
  ++ pushIf doc.linkImageSrc
  ++ (doc.imgs.map imgSrcCand).flatten

/-- route.ts `pickGenericImage`. -/
def pickGenericImage (doc : Doc) (finalUrl : String) : Option String :=
  let absolute :=
    (((genericCandidates doc).map fun u => toAbsoluteUrl u finalUrl).filter
      fun u => u ≠ "").filter keepImageUrl
  match absolute with
  | [] => none
  | h :: _ => some h

/-! ### POST handler (route.ts lines 175-267) -/

/-- Title chain (route.ts lines 219-224): `og:title || twitter:title ||
titleText` or else the empty string, then `cleanText`. -/
def titleOf (doc : Doc) : String :=
  cleanText (jsOrS (jsOrS doc.ogTitle doc.twitterTitle) doc.titleTag)

/-- Description chain (route.ts lines 227-238): `og:description ||
name=description || twitter:description` or else the empty string, then
`cleanText`.  Note the source checks `og:description` FIRST. -/
def descriptionOf (doc : Doc) : String :=
  cleanText (jsOrS (jsOrS doc.ogDescription doc.metaDescription) doc.twitterDescription)

/-- `new URL(finalUrl).hostname`, with the catch giving the empty string
(route.ts lines 210-216). -/
def hostOf (finalUrl : String) : String :=
  (parseUrl finalUrl).elim "" ParsedUrl.host

/-- Image dispatch (route.ts lines 244-252): Amazon-hosted pages try the
Amazon picker and fall back to the generic one. -/
def imageOf (doc : Doc) (host finalUrl : String) : Option String :=
  if strContains host "amazon." || host = "a.co" then
    let a := pickAmazonImage doc finalUrl
    if jsTruthy a then a else pickGenericImage doc finalUrl
  else pickGenericImage doc finalUrl

/-- The parsed request body, as far as the handler inspects it:
`req.json()` may throw, and the destructured `url` may be absent, not a
string, or a string. -/
inductive ReqBody where
  | badJson
  | urlMissing
  | urlNonString
  | urlString (s : String)
deriving DecidableEq

/-- Outcome of `fetch(url)`: the call may throw, return a non-OK status,
or return an OK response carrying a parsed document and a final
(post-redirect) URL, with `""` modelling an absent `res.url`. -/
inductive FetchOutcome where
  | throws
  | notOk
  | ok (doc : Doc) (resUrl : String)

/-- The JSON response of the route: a success payload or an
`{ error }` payload with its HTTP status. -/
inductive Resp where
  | ok (title description imageUrl : Option String) (price : Option ℚ)
  | err (msg : String) (status : Nat)
deriving DecidableEq

/-- The success payload assembled at route.ts lines 254-259, with
`x || null` coercions on the string fields. -/
def extractResp (doc : Doc) (finalUrl : String) : Resp :=
  Resp.ok (emptyToNone (titleOf doc)) (emptyToNone (descriptionOf doc))
    (jsOrNull (imageOf doc (hostOf finalUrl) finalUrl)) (findPrice doc)

/-- route.ts `POST`.  Returns the response together with the number of
`fetch` invocations performed.  `res.url || url` selects the final URL
(route.ts line 209). -/
def POSThandler (body : ReqBody) (oracle : String → FetchOutcome) : Resp × Nat :=
  match body with
  | .badJson => (.err "Unexpected error while scraping product" 500, 0)
  | .urlMissing => (.err "Missing or invalid URL" 400, 0)
  | .urlNonString => (.err "Missing or invalid URL" 400, 0)
  | .urlString url =>
    if url = "" then (.err "Missing or invalid URL" 400, 0)
    else
      match oracle url with
      | .throws => (.err "Unexpected error while scraping product" 500, 1)
      | .notOk => (.err "Failed to fetch page" 500, 1)
      | .ok doc resUrl =>
        (extractResp doc (if resUrl = "" then url else resUrl), 1)

/-! ### Historical ScraperAPI variant (src/unnamed/part_003)

Only its response-status control flow is embedded; the regex extraction
in its success branch cannot influence the status (it is fully wrapped,
and the success branch always answers 200), so it is elided. -/

/-- Outcome of the single ScraperAPI fetch tier of the variant. -/
inductive UpOutcome where
  | throws
  | notOk
  | ok
deriving DecidableEq

/-- part_003 `POST`: the error message (if any) and HTTP status of the
response, by branch.  A non-OK upstream response maps to 502 there. -/
def scrapeApiPOST (body : ReqBody) (hasApiKey : Bool) (upstream : UpOutcome) :
    Option String × Nat :=
  match body with
  | .badJson => (some "Could not fetch product details automatically.", 500)
  | .urlMissing => (some "Missing url", 400)
  | .urlNonString => (some "Missing url", 400)
  | .urlString s =>
    if s = "" then (some "Missing url", 400)
    else if !hasApiKey then (some "Server not configured for scraping", 500)
    else
      match upstream with
      | .throws => (some "Could not fetch product details automatically.", 500)
      | .notOk => (some "Could not fetch product details automatically.", 502)
      | .ok => (none, 200)

/-! ### Description order, findPrice behaviour, Amazon image claims -/

/-- A document carrying both a `meta[name=description]` and a different
`meta[property=og:description]`. -/
def descDocAB : Doc :=
  { emptyDoc with metaDescription := some "A", ogDescription := some "B" }

/-- Best Buy style document whose priority-selector candidate is below
ten dollars while the generic selector carries a large price. -/
def bbDocA : Doc :=
  { emptyDoc with
    priceViewCustomerPrice := some "$4.99"
    genericPriceSel := some "$249.99" }

/-- Document whose only candidates are three offscreen dollar spans in
decreasing order. -/
def bbDocB : Doc :=
  { emptyDoc with offscreenSpans := ["$299.99", "$249.99", "$189.99"] }

/-- Document whose only price candidate sits in the
`meta[itemprop=price]` tag. -/
def docMeta : Doc :=
  { emptyDoc with metaItempropPrice := some "19.99" }

/-- An Amazon landing-image JSON attribute value (`data-a-dynamic-image`)
whose first object key is the hero image URL. -/
def dynJson : String :=
  "\x7b\"https://m.media-amazon.com/x.jpg\":[500,500]\x7d"

/-- A document whose only image information is a JSON-shaped
`data-a-dynamic-image` attribute on `#landingImage`. -/
def c4doc : Doc :=
  { emptyDoc with landingImage := some ⟨none, some dynJson, none⟩ }

/-- A document whose landing image carries the given attributes and
nothing else. -/
def landingDoc (el : ImgEl) : Doc :=
  { emptyDoc with landingImage := some el }

/-- A document whose only price candidate is the sub-half-cent text
`0.001`. -/
def zeroPriceDoc : Doc :=
  { emptyDoc with metaItempropPrice := some "0.001" }

/-! ### Normal form of cleanText (C10) -/

/-- No two adjacent whitespace characters. -/
def noDoubleWs : List Char → Bool
  | a :: b :: t => (!(jsWs a && jsWs b)) && noDoubleWs (b :: t)
  | _ => true

/-- The first character, if any, is not whitespace. -/
def noLeadWs : List Char → Bool
  | [] => true
  | c :: _ => !jsWs c

/-- The last character, if any, is not whitespace. -/
def noTrailWs : List Char → Bool
  | [] => true
  | [c] => !jsWs c
  | _ :: t => noTrailWs t

theorem ratFloor_eq_intFloor (q : ℚ) : Rat.floor q = ⌊q⌋ :=
  rfl

theorem round2_eval (q : ℚ) (n : ℤ) (h1 : (n : ℚ) ≤ q * 100 + 1 / 2)
    (h2 : q * 100 + 1 / 2 < n + 1) : round2 q = (n : ℚ) / 100 := by
  rw [round2, ratFloor_eq_intFloor, Int.floor_eq_iff.mpr ⟨h1, h2⟩]

/-- Evaluation helper: once the character-level phase of `parsePrice` is
settled by `decide`, only rational arithmetic remains. -/
theorem parsePrice_eval (t : String) (a b k : ℕ) (h0 : ¬t = "")
    (h1 : jsRead (replaceFirstComma (t.toList.filter priceChar)) = some (a, b, k)) :
    parsePrice (some t) =
      (if ((a : ℚ) + (b : ℚ) / (10 : ℚ) ^ k) ≤ 0 then none
       else some (round2 ((a : ℚ) + (b : ℚ) / (10 : ℚ) ^ k))) := by
  simp only [parsePrice, jsParseFloat, h1, if_neg h0, Option.map_some']

/-- Evaluation helper for inputs whose cleaned text does not read as a
number. -/
theorem parsePrice_eval_nan (t : String) (h0 : ¬t = "")
    (h1 : jsRead (replaceFirstComma (t.toList.filter priceChar)) = none) :
    parsePrice (some t) = none := by
  simp only [parsePrice, jsParseFloat, h1, if_neg h0, Option.map_none']

/-! ### Concrete-evaluation helpers -/

theorem parsePrice_none : parsePrice none = none :=
  rfl

/-- Full evaluation of `parsePrice` at a concrete accepted input: the
character phase, the positivity guard and the rounding in one step. -/
theorem parsePrice_val (t : String) (a b k : ℕ) (n : ℤ) (h0 : ¬t = "")
    (h1 : jsRead (replaceFirstComma (t.toList.filter priceChar)) = some (a, b, k))
    (hpos : 0 < (a : ℚ) + (b : ℚ) / (10 : ℚ) ^ k)
    (hn1 : (n : ℚ) ≤ ((a : ℚ) + (b : ℚ) / (10 : ℚ) ^ k) * 100 + 1 / 2)
    (hn2 : ((a : ℚ) + (b : ℚ) / (10 : ℚ) ^ k) * 100 + 1 / 2 < n + 1) :
    parsePrice (some t) = some ((n : ℚ) / 100) := by
  rw [parsePrice_eval t a b k h0 h1, if_neg (not_le.mpr hpos),
    round2_eval _ n hn1 hn2]

theorem parsePrice_p499 : parsePrice (some "$4.99") = some (499 / 100 : ℚ) := by
  rw [parsePrice_val "$4.99" 4 99 2 499 (by decide) (by decide) (by norm_num)
    (by norm_num) (by norm_num)]
  norm_num

theorem parsePrice_p29999 : parsePrice (some "$299.99") = some (29999 / 100 : ℚ) := by
  rw [parsePrice_val "$299.99" 299 99 2 29999 (by decide) (by decide) (by norm_num)
    (by norm_num) (by norm_num)]
  norm_num

theorem parsePrice_zero : parsePrice (some "0.001") = some 0 := by
  rw [parsePrice_val "0.001" 0 1 3 0 (by decide) (by decide) (by norm_num)
    (by norm_num) (by norm_num)]
  norm_num

theorem parsePrice_p1999 : parsePrice (some "19.99") = some (1999 / 100 : ℚ) := by
  rw [parsePrice_val "19.99" 19 99 2 1999 (by decide) (by decide) (by norm_num)
    (by norm_num) (by norm_num)]
  norm_num

/-- C1: price normalization diverges from the claimed contract.  The
source replaces only the FIRST comma with a dot and strips sign
characters before the positivity guard, so the thousands-separator input
yields 1.3 instead of 1299.99 and the negative input yields 5 instead of
null; the European-style inputs and the empty input behave as claimed. -/
theorem parsePrice_behavior :
    parsePrice (some "$1,299.99") = some (13 / 10 : ℚ) ∧
    parsePrice (some "-5") = some (5 : ℚ) ∧
    parsePrice (some "29,99") = some (2999 / 100 : ℚ) ∧
    parsePrice (some "1299,99") = some (129999 / 100 : ℚ) ∧
    parsePrice (some "") = none ∧
    parsePrice none = none := by
  refine ⟨?_, ?_, ?_, ?_, by decide, rfl⟩
  · rw [parsePrice_val "$1,299.99" 1 299 3 130 (by decide) (by decide) (by norm_num)
      (by norm_num) (by norm_num)]
    norm_num
  · rw [parsePrice_val "-5" 5 0 0 500 (by decide) (by decide) (by norm_num)
      (by norm_num) (by norm_num)]
    norm_num
  · rw [parsePrice_val "29,99" 29 99 2 2999 (by decide) (by decide) (by norm_num)
      (by norm_num) (by norm_num)]
    norm_num
  · rw [parsePrice_val "1299,99" 1299 99 2 129999 (by decide) (by decide) (by norm_num)
      (by norm_num) (by norm_num)]
    norm_num

/-! ### Structural helpers for prefix reasoning -/

theorem prefix_head {p : List Char} {s : String} {c : Char}
    (h : (c :: p).isPrefixOf s.toList = true) : s.toList.head? = some c := by
  cases hl : s.toList with
  | nil => rw [hl] at h; simp [List.isPrefixOf] at h
  | cons d t =>
    rw [hl] at h
    simp only [List.isPrefixOf, Bool.and_eq_true, beq_iff_eq] at h
    simp [h.1]

theorem ne_empty_of_head {s : String} {c : Char}
    (h : s.toList.head? = some c) : s ≠ "" := by
  intro he
  rw [he] at h
  simp at h

/-- An http(s)-absolute candidate passes through `toAbsoluteUrl`
unchanged, whatever the base. -/
theorem toAbs_absolute (raw base : String)
    (h : (startsWithS raw "http://" || startsWithS raw "https://") = true) :
    toAbsoluteUrl raw base = raw := by
  have hh : raw.toList.head? = some 'h' := by
    rcases Bool.or_eq_true_iff.mp h with h1 | h1
    · exact prefix_head (p := "ttp://".toList) h1
    · exact prefix_head (p := "ttps://".toList) h1
  have hne : raw ≠ "" := ne_empty_of_head hh
  have h2 : ¬startsWithS raw "//" = true := by
    intro hx
    have := prefix_head (p := "/".toList) hx
    rw [hh] at this
    simp at this
  have h3 : ¬startsWithS raw "/" = true := by
    intro hx
    have := prefix_head (p := ([] : List Char)) hx
    rw [hh] at this
    simp at this
  unfold toAbsoluteUrl
  rw [if_neg hne, if_neg h2, if_neg h3, if_pos h]

/-- C5 counterexample: on an unparsable base the code returns the raw
candidate unchanged, and a falsy candidate returns the empty string;
neither is the null the claim requires, and the empty candidate is not
resolved against the base either. -/
theorem toAbsoluteUrl_failure_counterexample :
    toAbsoluteUrl "a.jpg" "notaurl" = "a.jpg" ∧
    toAbsoluteUrl "" "https://site.com/p" = "" := by
  decide

/-- C5 amended: the protocol-relative, origin-relative and
already-absolute rules hold as claimed, but every failure path yields
the raw candidate string (and a falsy candidate the empty string), never
a null marker. -/
theorem toAbsoluteUrl_contract_amended :
    toAbsoluteUrl "//img.example.com/a.jpg" "https://site.com/p" =
      "https://img.example.com/a.jpg" ∧
    toAbsoluteUrl "/a.jpg" "https://site.com/p" = "https://site.com/a.jpg" ∧
    (∀ raw base : String,
      (startsWithS raw "http://" || startsWithS raw "https://") = true →
      toAbsoluteUrl raw base = raw) ∧
    (∀ raw base : String, raw ≠ "" → parseUrl base = none →
      toAbsoluteUrl raw base = raw) ∧
    (∀ base : String, toAbsoluteUrl "" base = "") := by
  refine ⟨by decide, by decide, toAbs_absolute, ?_, ?_⟩
  · intro raw base hraw hparse
    unfold toAbsoluteUrl
    rw [if_neg hraw]
    by_cases h2 : startsWithS raw "//" = true
    · rw [if_pos h2, hparse]
    · rw [if_neg h2]
      by_cases h3 : startsWithS raw "/" = true
      · rw [if_pos h3, hparse]
      · rw [if_neg h3]
        by_cases h4 : (startsWithS raw "http://" || startsWithS raw "https://") = true
        · rw [if_pos h4]
        · rw [if_neg h4, hparse]
  · intro base
    unfold toAbsoluteUrl
    rw [if_pos rfl]

/-- C5 witness: the amended contract applied at concrete inputs. -/
theorem toAbsoluteUrl_contract_amended_witness :
    toAbsoluteUrl "http://cdn.example.com/i.png" "https://site.com/p" =
      "http://cdn.example.com/i.png" ∧
    toAbsoluteUrl "img/i.png" "not a url" = "img/i.png" :=
  ⟨toAbsoluteUrl_contract_amended.2.2.1 "http://cdn.example.com/i.png"
      "https://site.com/p" (by decide),
   toAbsoluteUrl_contract_amended.2.2.2.1 "img/i.png" "not a url" (by decide)
      (by decide)⟩

/-- C2 counterexample: the string `"notaurl"` neither parses as a URL
nor has an http(s) scheme, yet the handler does not answer 400: it
performs one fetch invocation (which throws) and answers 500. -/
theorem post_invalid_url_not_rejected :
    POSThandler (.urlString "notaurl") (fun _ => .throws) =
      (.err "Unexpected error while scraping product" 500, 1) ∧
    (1 : ℕ) ≠ 0 ∧ (500 : ℕ) ≠ 400 := by
  refine ⟨rfl, by decide, by decide⟩

/-- C2 amended: only a missing, non-string or empty `url` field is
rejected with 400 before fetching; every other string, parsable or not
and whatever its scheme, causes exactly one fetch invocation. -/
theorem post_validation_amended :
    ∀ (oracle : String → FetchOutcome) (s : String),
      POSThandler .urlMissing oracle = (.err "Missing or invalid URL" 400, 0) ∧
      POSThandler .urlNonString oracle = (.err "Missing or invalid URL" 400, 0) ∧
      (s ≠ "" → (POSThandler (.urlString s) oracle).2 = 1) := by
  intro oracle s
  refine ⟨rfl, rfl, fun hs => ?_⟩
  simp only [POSThandler]
  rw [if_neg hs]
  cases oracle s <;> rfl

/-- C2 witness: a disallowed-scheme URL still triggers one fetch
invocation. -/
theorem post_validation_amended_witness :
    (POSThandler (.urlString "ftp://example.com/f") (fun _ => .notOk)).2 = 1 :=
  (post_validation_amended (fun _ => .notOk) "ftp://example.com/f").2.2 (by decide)

/-- C8 counterexample: a non-OK upstream response makes the live route
answer 500 (with message `Failed to fetch page`), not the 502 the claim
requires. -/
theorem upstream_status_counterexample :
    POSThandler (.urlString "https://example.com/p") (fun _ => .notOk) =
      (.err "Failed to fetch page" 500, 1) ∧ (500 : ℕ) ≠ 502 :=
  ⟨rfl, by decide⟩

/-- C8 amended: on a non-OK upstream fetch the live route answers
`{ error }` with status 500; only the historical ScraperAPI variant
(src/unnamed/part_003) answers 502 there. -/
theorem upstream_status_amended :
    ∀ (s : String) (oracle : String → FetchOutcome), s ≠ "" →
      oracle s = .notOk →
      POSThandler (.urlString s) oracle = (.err "Failed to fetch page" 500, 1) ∧
      scrapeApiPOST (.urlString s) true .notOk =
        (some "Could not fetch product details automatically.", 502) := by
  intro s oracle hs ho
  constructor
  · simp only [POSThandler]
    rw [if_neg hs, ho]
  · simp only [scrapeApiPOST]
    rw [if_neg hs]
    rfl

/-- C8 witness: the amended statement at a concrete URL and oracle. -/
theorem upstream_status_amended_witness :
    POSThandler (.urlString "https://x.com/p") (fun _ => .notOk) =
      (.err "Failed to fetch page" 500, 1) :=
  (upstream_status_amended "https://x.com/p" (fun _ => .notOk) (by decide) rfl).1

/-- C9: per-field misses are not errors.  Whenever the fetch succeeds
the handler answers a success payload, and a document with no
extractable metadata still yields a success response with all four
fields null. -/
theorem fetch_success_never_errors :
    (∀ (s : String) (oracle : String → FetchOutcome) (doc : Doc) (resUrl : String),
        s ≠ "" → oracle s = .ok doc resUrl →
        ∃ t d i p, POSThandler (.urlString s) oracle = (.ok t d i p, 1)) ∧
    POSThandler (.urlString "https://example.com/x") (fun _ => .ok emptyDoc "") =
      (.ok none none none none, 1) := by
  constructor
  · intro s oracle doc resUrl hs ho
    refine ⟨emptyToNone (titleOf doc), emptyToNone (descriptionOf doc),
      jsOrNull (imageOf doc (hostOf (if resUrl = "" then s else resUrl))
        (if resUrl = "" then s else resUrl)), findPrice doc, ?_⟩
    simp only [POSThandler]
    rw [if_neg hs, ho]
    rfl
  · decide

/-- C9 witness: the general part applied at a concrete request. -/
theorem fetch_success_never_errors_witness :
    ∃ t d i p, POSThandler (.urlString "https://a.co/item")
      (fun _ => .ok emptyDoc "") = (.ok t d i p, 1) :=
  fetch_success_never_errors.1 "https://a.co/item" _ emptyDoc "" (by decide) rfl

/-- C6 counterexample: with `name=description` content `A` and
`og:description` content `B`, the extractor returns `B` (the source
checks `og:description` first), not the claimed `A`. -/
theorem description_order_counterexample :
    descriptionOf descDocAB = "B" ∧ descriptionOf descDocAB ≠ "A" := by
  decide

/-- C6 amended: the live chain order is `og:description` →
`name=description` → `twitter:description`, the first truthy content
(before normalization) winning. -/
theorem description_chain_amended :
    ∀ doc : Doc,
      (jsTruthy doc.ogDescription = true →
        descriptionOf doc = cleanText doc.ogDescription) ∧
      (jsTruthy doc.ogDescription = false → jsTruthy doc.metaDescription = true →
        descriptionOf doc = cleanText doc.metaDescription) ∧
      (jsTruthy doc.ogDescription = false → jsTruthy doc.metaDescription = false →
        descriptionOf doc = cleanText doc.twitterDescription) := by
  intro doc
  refine ⟨fun h1 => ?_, fun h1 h2 => ?_, fun h1 h2 => ?_⟩ <;>
    simp_all [descriptionOf, jsOrS]

/-- C6 witness: the first branch of the amended chain at a concrete
document. -/
theorem description_chain_amended_witness :
    descriptionOf descDocAB = cleanText (some "B") :=
  (description_chain_amended descDocAB).1 (by decide)

theorem priceTexts_bbDocA :
    priceTexts bbDocA =
      [none, none, none, none, none, none, some "$4.99", some "$249.99"] := by
  decide

theorem priceTexts_bbDocB :
    priceTexts bbDocB =
      [none, none, none, none, none, none, some "$299.99", some "$249.99",
        some "$189.99", none, none] := by
  decide

theorem findPrice_bbDocA : findPrice bbDocA = some (499 / 100 : ℚ) := by
  rw [findPrice, priceTexts_bbDocA]
  simp only [firstParse, parsePrice_none, parsePrice_p499]

theorem findPrice_bbDocB : findPrice bbDocB = some (29999 / 100 : ℚ) := by
  rw [findPrice, priceTexts_bbDocB]
  simp only [firstParse, parsePrice_none, parsePrice_p29999]

/-- C3 counterexample: there is no ten-dollar floor and no minimum
phase.  With priority-selector candidates 4.99 then 249.99 the resolver
returns 4.99 (claim: 249.99); with only the candidates 299.99, 249.99,
189.99 it returns the first, 299.99 (claim: the minimum 189.99). -/
theorem findPrice_no_phases_counterexample :
    findPrice bbDocA = some (499 / 100 : ℚ) ∧
    findPrice bbDocA ≠ some (24999 / 100 : ℚ) ∧
    findPrice bbDocB = some (29999 / 100 : ℚ) ∧
    findPrice bbDocB ≠ some (18999 / 100 : ℚ) := by
  refine ⟨findPrice_bbDocA, ?_, findPrice_bbDocB, ?_⟩
  · rw [findPrice_bbDocA]
    simp only [ne_eq, Option.some.injEq]
    norm_num
  · rw [findPrice_bbDocB]
    simp only [ne_eq, Option.some.injEq]
    norm_num

/-- C3 amended: `findPrice` performs a single ordered scan over a fixed
candidate list and returns the first candidate that parses, with no
value floor and no minimum rule: the very first candidate always wins
when it parses, 4.99 beats a later 249.99, and 299.99 beats later
smaller candidates. -/
theorem findPrice_first_hit_amended :
    (∀ (doc : Doc) (p : ℚ),
      parsePrice (jsOrNull doc.metaItempropPrice) = some p →
      findPrice doc = some p) ∧
    findPrice bbDocA = some (499 / 100 : ℚ) ∧
    findPrice bbDocB = some (29999 / 100 : ℚ) := by
  refine ⟨fun doc p h => ?_, findPrice_bbDocA, findPrice_bbDocB⟩
  simp only [findPrice, priceTexts, List.cons_append, firstParse, h]

theorem findPrice_docMeta : findPrice docMeta = some (1999 / 100 : ℚ) := by
  rw [findPrice, show priceTexts docMeta =
    [some "19.99", none, none, none, none, none, none, none] from by decide]
  simp only [firstParse, parsePrice_p1999]

/-- C3 witness: the first-hit rule applied at a concrete document. -/
theorem findPrice_first_hit_amended_witness :
    findPrice docMeta = some (1999 / 100 : ℚ) :=
  findPrice_first_hit_amended.1 docMeta _
    (by rw [show jsOrNull docMeta.metaItempropPrice = some "19.99" from rfl]
        exact parsePrice_p1999)

/-- C4 counterexample: the resolver never parses a JSON-shaped
`data-a-dynamic-image` value; it filters out anything starting with a
brace, so this document yields no image at all instead of the claimed
first object key. -/
theorem pickAmazonImage_json_counterexample :
    pickAmazonImage c4doc "https://www.amazon.com/dp/B0" = none ∧
    pickAmazonImage c4doc "https://www.amazon.com/dp/B0" ≠
      some "https://m.media-amazon.com/x.jpg" := by
  decide

/-- C4 amended: a JSON-shaped (brace-initial) `data-a-dynamic-image`
value is skipped rather than parsed; with no other source the resolver
returns null, and when the element also has a plain `src` the `src` is
used instead. -/
theorem pickAmazonImage_skips_json_amended :
    ∀ (j s finalUrl : String),
      startsWithS j "\x7b" = true →
      startsWithS s "https://" = true →
      keepImageUrl s = true →
      pickAmazonImage (landingDoc ⟨none, some j, none⟩) finalUrl = none ∧
      pickAmazonImage (landingDoc ⟨none, some j, some s⟩) finalUrl = some s := by
  intro j s finalUrl hj hs hkeep
  have hsne : s ≠ "" :=
    ne_empty_of_head (prefix_head (p := "ttps://".toList) hs)
  have habs : toAbsoluteUrl s finalUrl = s :=
    toAbs_absolute s finalUrl (by rw [hs, Bool.or_true])
  constructor
  · have hc : amazonCandidates (landingDoc ⟨none, some j, none⟩) = [] := by
      simp [amazonCandidates, landingDoc, emptyDoc, imgElCandidates, jsOrS,
        jsTruthy, pushIf, hj]
    simp [pickAmazonImage, hc]
  · have hc : amazonCandidates (landingDoc ⟨none, some j, some s⟩) = [s] := by
      simp [amazonCandidates, landingDoc, emptyDoc, imgElCandidates, jsOrS,
        jsTruthy, pushIf, hj, hsne]
    simp only [pickAmazonImage, hc, List.map_cons, List.map_nil, habs]
    rw [show List.filter (fun u => decide (u ≠ "")) [s] = [s] from by
      simp [List.filter_cons, hsne]]
    rw [show List.filter keepImageUrl [s] = [s] from by
      simp [List.filter_cons, hkeep]]
    cases hfind : strContains s "m.media-amazon.com" <;>
      simp [List.find?, hfind]

/-- C4 witness: a JSON-shaped dynamic-image value next to a plain `src`
resolves to the `src`. -/
theorem pickAmazonImage_skips_json_amended_witness :
    pickAmazonImage
      (landingDoc ⟨none, some dynJson, some "https://m.media-amazon.com/y.jpg"⟩)
      "https://www.amazon.com/dp/B0" = some "https://m.media-amazon.com/y.jpg" :=
  (pickAmazonImage_skips_json_amended dynJson "https://m.media-amazon.com/y.jpg"
    "https://www.amazon.com/dp/B0" (by decide) (by decide) (by decide)).2

/-! ### The price invariant (C7) -/

theorem round2_nonneg (q : ℚ) (hq : 0 ≤ q) : 0 ≤ round2 q := by
  rw [round2, ratFloor_eq_intFloor]
  have h1 : (0 : ℤ) ≤ ⌊q * 100 + 1 / 2⌋ := Int.floor_nonneg.mpr (by positivity)
  have h2 : (0 : ℚ) ≤ (⌊q * 100 + 1 / 2⌋ : ℚ) := by exact_mod_cast h1
  exact div_nonneg h2 (by norm_num)

theorem round2_int_div (n : ℤ) : round2 ((n : ℚ) / 100) = (n : ℚ) / 100 := by
  rw [round2, ratFloor_eq_intFloor]
  have h : (n : ℚ) / 100 * 100 + 1 / 2 = (n : ℚ) + 1 / 2 := by
    rw [div_mul_cancel₀ _ (by norm_num : (100 : ℚ) ≠ 0)]
  rw [h, Int.floor_int_add,
    show ⌊(1 / 2 : ℚ)⌋ = 0 from by rw [Int.floor_eq_iff]; norm_num, add_zero]

theorem round2_idem (q : ℚ) : round2 (round2 q) = round2 q := by
  rw [show round2 q = ((⌊q * 100 + 1 / 2⌋ : ℤ) : ℚ) / 100 from by
    rw [round2, ratFloor_eq_intFloor]]
  exact round2_int_div _

/-- Anything `parsePrice` accepts is the two-decimal rounding of some
positive rational. -/
theorem parsePrice_shape (t : Option String) (p : ℚ) (h : parsePrice t = some p) :
    ∃ q : ℚ, 0 < q ∧ p = round2 q := by
  cases t with
  | none => simp [parsePrice] at h
  | some s =>
    by_cases hs : s = ""
    · simp [parsePrice, hs] at h
    · cases hj : jsParseFloat (replaceFirstComma (s.toList.filter priceChar)) with
      | none => simp [parsePrice, String.toList, if_neg hs,
          show jsParseFloat (replaceFirstComma (s.data.filter priceChar)) = none from hj] at h
      | some num =>
        simp only [parsePrice, String.toList, if_neg hs,
          show jsParseFloat (replaceFirstComma (s.data.filter priceChar)) = some num from hj] at h
        by_cases hn : num ≤ 0
        · simp [if_pos hn] at h
        · rw [if_neg hn] at h
          injection h with h
          exact ⟨num, not_le.mp hn, h.symm⟩

/-- A value returned by the candidate loop comes from some candidate. -/
theorem firstParse_mem :
    ∀ (ts : List (Option String)) (p : ℚ),
      firstParse ts = some p → ∃ t ∈ ts, parsePrice t = some p := by
  intro ts
  induction ts with
  | nil => intro p h; simp [firstParse] at h
  | cons t rest ih =>
    intro p h
    cases hp : parsePrice t with
    | some q =>
      simp only [firstParse, hp] at h
      injection h with h
      exact ⟨t, List.mem_cons_self .., by rw [hp, h]⟩
    | none =>
      simp only [firstParse, hp] at h
      obtain ⟨u, hu, hpu⟩ := ih p h
      exact ⟨u, List.mem_cons_of_mem _ hu, hpu⟩

/-- C7 amended: a present price is nonnegative and is a fixed point of
two-decimal rounding; strict positivity is NOT guaranteed (see the
counterexample), so nonnegativity is the provable bound. -/
theorem price_invariant_amended :
    ∀ (doc : Doc) (p : ℚ), findPrice doc = some p → 0 ≤ p ∧ round2 p = p := by
  intro doc p h
  obtain ⟨t, _, hpt⟩ := firstParse_mem (priceTexts doc) p h
  obtain ⟨q, hq, rfl⟩ := parsePrice_shape t p hpt
  exact ⟨round2_nonneg q hq.le, round2_idem q⟩

theorem findPrice_zeroPriceDoc : findPrice zeroPriceDoc = some 0 := by
  rw [findPrice, show priceTexts zeroPriceDoc =
    [some "0.001", none, none, none, none, none, none, none] from by decide]
  simp only [firstParse, parsePrice_zero]

/-- C7 counterexample: the candidate text `0.001` passes the positivity
guard and then rounds to exactly 0, so the assembled price can be
present yet not strictly positive. -/
theorem price_zero_counterexample :
    findPrice zeroPriceDoc = some (0 : ℚ) ∧
    ¬(∀ p : ℚ, findPrice zeroPriceDoc = some p → 0 < p) := by
  refine ⟨findPrice_zeroPriceDoc, fun hall => ?_⟩
  exact lt_irrefl 0 (hall 0 findPrice_zeroPriceDoc)

/-- C7 witness: the amended invariant at the concrete zero-price
document. -/
theorem price_invariant_amended_witness :
    0 ≤ (0 : ℚ) ∧ round2 (0 : ℚ) = 0 :=
  price_invariant_amended zeroPriceDoc 0 findPrice_zeroPriceDoc

theorem jsWs_space : jsWs ' ' = true :=
  rfl

theorem jsWs_ite (a : Char) : jsWs (if jsWs a then ' ' else a) = jsWs a := by
  by_cases h : jsWs a
  · rw [if_pos h, jsWs_space, h]
  · rw [if_neg h]

theorem collapseWs_head (l : List Char) :
    (collapseWs l).head? = l.head?.map fun x => if jsWs x then ' ' else x := by
  induction l using collapseWs.induct with
  | case1 => rfl
  | case2 a => rfl
  | case3 a b t hab ih =>
    have hab2 : jsWs a = true ∧ jsWs b = true := by
      simpa [Bool.and_eq_true] using hab
    simp only [collapseWs]
    rw [if_pos hab, ih]
    simp [hab2.1, hab2.2]
  | case4 a b t hab ih =>
    simp only [collapseWs]
    rw [if_neg hab]
    simp

theorem noDouble_cons_iff (a : Char) (l : List Char) :
    noDoubleWs (a :: l) = true ↔
      noDoubleWs l = true ∧ ∀ b, l.head? = some b → (jsWs a && jsWs b) = false := by
  cases l with
  | nil => simp [noDoubleWs]
  | cons b t =>
    simp only [noDoubleWs, Bool.and_eq_true, Bool.not_eq_true', List.head?_cons]
    constructor
    · rintro ⟨h1, h2⟩
      exact ⟨h2, fun x hx => by cases hx; exact h1⟩
    · rintro ⟨h1, h2⟩
      exact ⟨h2 b rfl, h1⟩

theorem collapseWs_noDouble (l : List Char) : noDoubleWs (collapseWs l) = true := by
  induction l using collapseWs.induct with
  | case1 => rfl
  | case2 a => rfl
  | case3 a b t hab ih =>
    simp only [collapseWs]
    rw [if_pos hab]
    exact ih
  | case4 a b t hab ih =>
    simp only [collapseWs]
    rw [if_neg hab]
    rw [noDouble_cons_iff]
    refine ⟨ih, fun y hy => ?_⟩
    rw [collapseWs_head] at hy
    simp only [List.head?_cons, Option.map_some', Option.some.injEq] at hy
    subst hy
    rw [jsWs_ite, jsWs_ite]
    simpa using hab

theorem collapseWs_allSpace (l : List Char) :
    ∀ c ∈ collapseWs l, jsWs c = true → c = ' ' := by
  induction l using collapseWs.induct with
  | case1 => intro c hc; simp [collapseWs] at hc
  | case2 a =>
    intro c hc hw
    simp only [collapseWs, List.mem_singleton] at hc
    subst hc
    by_cases h : jsWs a
    · rw [if_pos h]
    · rw [if_neg h]
      rw [if_neg h] at hw
      exact absurd hw h
  | case3 a b t hab ih =>
    intro c hc hw
    simp only [collapseWs] at hc
    rw [if_pos hab] at hc
    exact ih c hc hw
  | case4 a b t hab ih =>
    intro c hc hw
    simp only [collapseWs] at hc
    rw [if_neg hab] at hc
    rcases List.mem_cons.mp hc with hc | hc
    · subst hc
      by_cases h : jsWs a
      · rw [if_pos h]
      · rw [if_neg h]
        rw [if_neg h] at hw
        exact absurd hw h
    · exact ih c hc hw

theorem collapseWs_fix (l : List Char) (h1 : noDoubleWs l = true)
    (h2 : ∀ c ∈ l, jsWs c = true → c = ' ') : collapseWs l = l := by
  induction l using collapseWs.induct with
  | case1 => rfl
  | case2 a =>
    simp only [collapseWs]
    by_cases h : jsWs a
    · rw [if_pos h, h2 a (List.mem_singleton_self a) h]
    · rw [if_neg h]
  | case3 a b t hab ih =>
    exfalso
    rw [noDouble_cons_iff] at h1
    have := h1.2 b rfl
    rw [this] at hab
    exact absurd hab (by simp)
  | case4 a b t hab ih =>
    simp only [collapseWs]
    rw [if_neg hab]
    rw [noDouble_cons_iff] at h1
    have ht : collapseWs (b :: t) = b :: t :=
      ih h1.1 fun c hc hw => h2 c (List.mem_cons_of_mem a hc) hw
    rw [ht]
    by_cases h : jsWs a
    · rw [if_pos h, h2 a (List.mem_cons_self ..) h]
    · rw [if_neg h]

theorem trimRightWs_prefix (l : List Char) : ∃ t, l = trimRightWs l ++ t := by
  induction l with
  | nil => exact ⟨[], rfl⟩
  | cons c t ih =>
    obtain ⟨u, hu⟩ := ih
    simp only [trimRightWs]
    cases h : trimRightWs t with
    | nil =>
      by_cases hc : jsWs c
      · rw [if_pos hc]
        exact ⟨c :: t, rfl⟩
      · rw [if_neg hc]
        rw [h] at hu
        exact ⟨t, by simp [hu]⟩
    | cons y r =>
      rw [h] at hu
      exact ⟨u, by rw [List.cons_append, ← hu]⟩

theorem noDouble_append_left :
    ∀ l₁ l₂ : List Char, noDoubleWs (l₁ ++ l₂) = true → noDoubleWs l₁ = true := by
  intro l₁
  induction l₁ with
  | nil => intro l₂ h; rfl
  | cons a t ih =>
    intro l₂ h
    rw [List.cons_append, noDouble_cons_iff] at h
    rw [noDouble_cons_iff]
    refine ⟨ih l₂ h.1, fun b hb => h.2 b ?_⟩
    cases t with
    | nil => simp at hb
    | cons x r => simpa using hb

theorem noDouble_dropWhile (l : List Char) (h : noDoubleWs l = true) :
    noDoubleWs (l.dropWhile jsWs) = true := by
  induction l with
  | nil => rfl
  | cons a t ih =>
    rw [noDouble_cons_iff] at h
    rw [List.dropWhile_cons]
    by_cases ha : jsWs a = true
    · rw [if_pos ha]
      exact ih h.1
    · rw [if_neg ha]
      exact noDouble_cons_iff .. |>.mpr h

theorem mem_dropWhile (l : List Char) (c : Char) (hc : c ∈ l.dropWhile jsWs) :
    c ∈ l := by
  induction l with
  | nil => simp at hc
  | cons a t ih =>
    rw [List.dropWhile_cons] at hc
    by_cases ha : jsWs a = true
    · rw [if_pos ha] at hc
      exact List.mem_cons_of_mem a (ih hc)
    · rw [if_neg ha] at hc
      exact hc

theorem mem_trimRightWs (l : List Char) (c : Char) (hc : c ∈ trimRightWs l) :
    c ∈ l := by
  obtain ⟨u, hu⟩ := trimRightWs_prefix l
  rw [hu]
  exact List.mem_append_left u hc

theorem noLead_dropWhile (l : List Char) : noLeadWs (l.dropWhile jsWs) = true := by
  induction l with
  | nil => rfl
  | cons a t ih =>
    rw [List.dropWhile_cons]
    by_cases ha : jsWs a = true
    · rw [if_pos ha]
      exact ih
    · rw [if_neg ha]
      simpa [noLeadWs] using ha

theorem noLead_trimRightWs (l : List Char) (h : noLeadWs l = true) :
    noLeadWs (trimRightWs l) = true := by
  cases l with
  | nil => rfl
  | cons c t =>
    simp only [trimRightWs]
    cases ht : trimRightWs t with
    | nil =>
      by_cases hc : jsWs c
      · rw [if_pos hc]
        rfl
      · rw [if_neg hc]
        exact h
    | cons y r => exact h

theorem noTrail_trimRightWs (l : List Char) : noTrailWs (trimRightWs l) = true := by
  induction l with
  | nil => rfl
  | cons c t ih =>
    simp only [trimRightWs]
    cases ht : trimRightWs t with
    | nil =>
      by_cases hc : jsWs c
      · rw [if_pos hc]
        rfl
      · rw [if_neg hc]
        simpa [noTrailWs] using hc
    | cons y r =>
      rw [ht] at ih
      simpa [noTrailWs] using ih

theorem dropWhile_fix (l : List Char) (h : noLeadWs l = true) :
    l.dropWhile jsWs = l := by
  cases l with
  | nil => rfl
  | cons c t =>
    rw [List.dropWhile_cons]
    have hc : ¬jsWs c = true := by simpa [noLeadWs] using h
    rw [if_neg hc]

theorem trimRightWs_cons_of_ne (c : Char) (t : List Char)
    (h : trimRightWs t ≠ []) : trimRightWs (c :: t) = c :: trimRightWs t := by
  cases ht : trimRightWs t with
  | nil => exact absurd ht h
  | cons y r => simp only [trimRightWs, ht]

theorem trimRightWs_fix (l : List Char) (h : noTrailWs l = true) :
    trimRightWs l = l := by
  induction l with
  | nil => rfl
  | cons c t ih =>
    cases t with
    | nil =>
      have hc : ¬jsWs c = true := by simpa [noTrailWs] using h
      simp only [trimRightWs]
      rw [if_neg hc]
    | cons b t2 =>
      have ht : trimRightWs (b :: t2) = b :: t2 := ih (by simpa [noTrailWs] using h)
      rw [trimRightWs_cons_of_ne c _ (by rw [ht]; simp), ht]

theorem cleanList_props (l : List Char) :
    noLeadWs (cleanList l) = true ∧ noTrailWs (cleanList l) = true ∧
      noDoubleWs (cleanList l) = true ∧
      ∀ c ∈ cleanList l, jsWs c = true → c = ' ' := by
  refine ⟨?_, ?_, ?_, ?_⟩
  · exact noLead_trimRightWs _ (noLead_dropWhile _)
  · exact noTrail_trimRightWs _
  · have hd : noDoubleWs (List.dropWhile jsWs (collapseWs l)) = true :=
      noDouble_dropWhile _ (collapseWs_noDouble l)
    obtain ⟨u, hu⟩ := trimRightWs_prefix (List.dropWhile jsWs (collapseWs l))
    rw [hu] at hd
    exact noDouble_append_left _ _ hd
  · intro c hc hw
    exact collapseWs_allSpace l c (mem_dropWhile _ _ (mem_trimRightWs _ _ hc)) hw

theorem cleanList_idem (l : List Char) : cleanList (cleanList l) = cleanList l := by
  obtain ⟨h1, h2, h3, h4⟩ := cleanList_props l
  rw [show cleanList (cleanList l) = jsTrim (collapseWs (cleanList l)) from rfl]
  rw [collapseWs_fix _ h3 h4, jsTrim, dropWhile_fix _ h1, trimRightWs_fix _ h2]

theorem toList_mk (l : List Char) : (String.mk l).toList = l :=
  rfl

theorem mk_eq_empty_iff (l : List Char) : String.mk l = "" ↔ l = [] :=
  ⟨fun h => congrArg String.data h, fun h => by rw [h]⟩

/-- C10: `cleanText` is idempotent and its output is in normal form: no
leading or trailing whitespace, no run of two or more whitespace
characters, and null, undefined and empty inputs all give the empty
string. -/
theorem cleanText_idempotent_normal :
    ∀ s : Option String,
      cleanText (some (cleanText s)) = cleanText s ∧
      noLeadWs (cleanText s).toList = true ∧
      noTrailWs (cleanText s).toList = true ∧
      noDoubleWs (cleanText s).toList = true ∧
      cleanText none = "" ∧ cleanText (some "") = "" := by
  intro s
  cases s with
  | none => decide
  | some t =>
    by_cases ht : t = ""
    · subst ht
      decide
    · have hct : cleanText (some t) = String.mk (cleanList t.toList) := by
        simp [cleanText, ht]
      obtain ⟨h1, h2, h3, h4⟩ := cleanList_props t.toList
      refine ⟨?_, ?_, ?_, ?_, rfl, by decide⟩
      · rw [hct]
        by_cases hL : cleanList t.toList = []
        · rw [hL]
          rfl
        · have hne : String.mk (cleanList t.toList) ≠ "" := fun hh =>
            hL ((mk_eq_empty_iff _).mp hh)
          have hstep : cleanText (some (String.mk (cleanList t.toList))) =
              String.mk (cleanList (String.mk (cleanList t.toList)).toList) := by
            simp only [cleanText]
            rw [if_neg hne]
          rw [hstep, toList_mk, cleanList_idem]
      · rw [hct, toList_mk]
        exact h1
      · rw [hct, toList_mk]
        exact h2
      · rw [hct, toList_mk]
        exact h3

/-- C10 witness: idempotence at a concrete messy string. -/
theorem cleanText_idempotent_normal_witness :
    cleanText (some (cleanText (some "  two   words "))) =
      cleanText (some "  two   words ") :=
  (cleanText_idempotent_normal (some "  two   words ")).1
